import Mathlib

/-!
Shallow embedding of the incremental commit-sync core (git_etl): the commit
normalizer, the KV store writer, the watermark tracker, the sync
orchestrator and the config validators, together with theorems checking the
specified behavior of each.

JS Date instants are modelled as natural numbers of milliseconds since the
epoch; all Date comparisons in the source go through getTime, so only the
numeric order matters. A JS value of type Date or string that may be
undefined is modelled as an Option.
-/

namespace GitEtl

/-- Milliseconds in one second, the SECOND constant of the datetime library. -/
def SECOND : Nat := 1000

/-- An instant, in milliseconds. -/
abbrev Timestamp := Nat

/-- The CommitData record stored for each commit (source lines 17 to 22). -/
structure CommitData where
  commitHash : String
  commitTimestamp : Option Timestamp
  commitMessage : String
  commitEmail : Option String
deriving DecidableEq, Repr

/-- The repo and owner pair returned by validateRepoConfig (source lines 27 to 30). -/
structure RepoInfo where
  repo : String
  owner : String
deriving DecidableEq, Repr

/-- The author or committer sub-record of a raw GitHub commit: both the email
and the date fields are optional in the API schema. -/
structure GitUser where
  email : Option String
  date : Option Timestamp
deriving DecidableEq, Repr

/-- The commit field of a raw GitHub commit: message, optional author and
optional committer sub-records. -/
structure CommitDetail where
  message : String
  author : Option GitUser
  committer : Option GitUser
deriving DecidableEq, Repr

/-- One raw commit as returned by the list-commits API: a sha and a commit
detail record. -/
structure RawCommit where
  sha : String
  commit : CommitDetail
deriving DecidableEq, Repr

/-- A Deno KV key as used by this program: a two-element array of the string
commits/repo and the commit hash. -/
abbrev KvKey := String × String

/-- The Deno KV store restricted to the keys this program uses: an ordered
collection of key-value entries with unique keys, modelled as an association
list. -/
abbrev KvStore := List (KvKey × CommitData)

/-- The kv.set primitive: upsert, replacing the entry at an existing key in
place and otherwise adding a new entry. -/
def kvSet (kv : KvStore) (k : KvKey) (v : CommitData) : KvStore :=
  match kv with
  | [] => [(k, v)]
  | e :: rest => if e.1 = k then (k, v) :: rest else e :: kvSet rest k v

/-- The kv.get primitive: the value stored at a key, if any. -/
def kvGet (kv : KvStore) (k : KvKey) : Option CommitData :=
  (kv.find? (fun e => decide (e.1 = k))).map (fun e => e.2)

/-- The kv.list primitive restricted to a one-element key prefix: the values
of all entries whose key starts with the given string. -/
def kvListPfx (kv : KvStore) (p : String) : List CommitData :=
  (kv.filter (fun e => decide (e.1.1 = p))).map (fun e => e.2)

/-- The loop body of parseCommits for one raw commit (source lines 85 to 114):
commitEmail and commitDate are first taken from the author sub-record when it
is present (the email even when the date is absent); when no date was
assigned from the author, both are overwritten from the committer sub-record
provided the committer has a date. -/
def parseCommitItem (item : RawCommit) : CommitData :=
  let commitEmail : Option String :=
    match item.commit.author with
    | some a => a.email
    | none => none
  let commitDate : Option Timestamp :=
    match item.commit.author with
    | some a => a.date
    | none => none
  let resolved : Option String × Option Timestamp :=
    match commitDate with
    | some d => (commitEmail, some d)
    | none =>
      match item.commit.committer with
      | some c =>
        match c.date with
        | some d => (c.email, some d)
        | none => (commitEmail, none)
      | none => (commitEmail, none)
  { commitHash := item.sha
    commitTimestamp := resolved.2
    commitMessage := item.commit.message
    commitEmail := resolved.1 }

/-- parseCommits (source lines 82 to 118): one CommitData pushed per raw
commit, in order. -/
def parseCommits (commits : List RawCommit) : List CommitData :=
  commits.map parseCommitItem

/-- storeCommits (source lines 127 to 132): kv.set each commit under the key
pair of commits/repo and its hash. -/
def storeCommits (kv : KvStore) (repo : String) (commits : List CommitData) : KvStore :=
  commits.foldl (fun acc c => kvSet acc ("commits/" ++ repo, c.commitHash) c) kv

/-- The loop body of getLatestStoredCommitTimestamp (source line 147): the JS
condition maxTimestamp is falsy, or timestamp is truthy and greater than
maxTimestamp, guards the assignment maxTimestamp := timestamp. A Date object
is always truthy, so maxTimestamp is falsy exactly when it is undefined. -/
def stepMax (maxTimestamp timestamp : Option Timestamp) : Option Timestamp :=
  match maxTimestamp, timestamp with
  | none, t => t
  | some m, some t => if m < t then some t else some m
  | some m, none => some m

/-- getLatestStoredCommitTimestamp (source lines 141 to 153): fold the loop
body over all stored values under the commits/repo prefix, starting from
undefined. -/
def getLatestStoredCommitTimestamp (kv : KvStore) (repo : String) : Option Timestamp :=
  (kvListPfx kv ("commits/" ++ repo)).foldl (fun acc c => stepMax acc c.commitTimestamp) none

/-- isNonEmptyConfigString (source lines 161 to 167). A config field is
modelled as an Option String: none stands for a missing field and also for a
non-string JSON value (both fail the typeof check, and every behavior the
claims mention treats the two alike); some of the empty string is a present
empty string. -/
def isNonEmptyConfigString (cfg : Option String) : Bool :=
  match cfg with
  | some s => decide (s ≠ "")
  | none => false

/-- The message of the error thrown by validateRepoConfig (source line 189). -/
def repoConfigErrMsg : String :=
  "Both owner and repo must be specified and valid strings to use in config"

/-- validateRepoConfig (source lines 178 to 196). Throwing is modelled as
Except.error. In the first branch both guards ensure the options are some,
so getD never falls back to its default argument there. -/
def validateRepoConfig (owner : Option String) (defaultOwner : String)
    (repo : Option String) (defaultRepo : String) : Except String RepoInfo :=
  let validOwner := isNonEmptyConfigString owner
  let validRepo := isNonEmptyConfigString repo
  if validOwner && validRepo then
    Except.ok { repo := repo.getD defaultRepo, owner := owner.getD defaultOwner }
  else if (validOwner && !validRepo) || (!validOwner && validRepo) then
    Except.error repoConfigErrMsg
  else
    Except.ok { repo := defaultRepo, owner := defaultOwner }

/-- The message of the error thrown when the cron expression fails to parse:
the external cron library throws with a library-specific message, modelled by
a fixed string. -/
def cronErrMsg : String := "Invalid cron expression"

/-- validateCronConfig (source lines 205 to 214). The external cron library
call is modelled by the oracle parseOk; the library throws on an expression
it cannot parse, and the source wraps the call in no try block, so the
exception propagates out of validateCronConfig, modelled as Except.error.
The source parses the config file field rather than its own argument, but at
its only call site the argument is exactly that field, so the two
coincide. -/
def validateCronConfig (parseOk : String → Bool) (cronExpression : Option String)
    (defaultCronExp : String) : Except String String :=
  if isNonEmptyConfigString cronExpression then
    if parseOk (cronExpression.getD "") then
      Except.ok (cronExpression.getD "")
    else
      Except.error cronErrMsg
  else
    Except.ok defaultCronExp

/-- The since argument main passes to getCommits (source lines 319 to 324):
the stored watermark advanced by one second when present, absent
otherwise. -/
def sinceOf (kv : KvStore) (repo : String) : Option Timestamp :=
  match getLatestStoredCommitTimestamp kv repo with
  | some t => some (t + SECOND)
  | none => none

/-- main (source lines 318 to 331): read the watermark, add one second when
present, fetch since then, parse, store. The network fetch getCommits is an
effect, modelled as a function from the since argument to the list of raw
commits the API returns; the repo and owner arguments it forwards to the API
are captured inside that function. -/
def main (kv : KvStore) (fetch : Option Timestamp → List RawCommit) (repo : String) : KvStore :=
  let maxTimestamp := sinceOf kv repo
  let data := fetch maxTimestamp
  let parsedCommits := parseCommits data
  storeCommits kv repo parsedCommits

/-- Modelled from the spec: the upstream list-commits API capability, out of
scope of the source, filters inclusively, returning only commits whose
timestamp is at or after the since instant when one is given. This predicate
says whether a commit at instant t passes that filter. -/
def passesSinceFilter (since : Option Timestamp) (t : Timestamp) : Bool :=
  match since with
  | none => true
  | some s => decide (s ≤ t)

/-! ### Basic facts about the KV model -/

/-- The keys of the store entries. -/
def kvKeys (kv : KvStore) : List KvKey :=
  kv.map Prod.fst

/-- A well-formed store holds at most one entry per key. -/
def nodupKeys (kv : KvStore) : Prop :=
  (kvKeys kv).Nodup

theorem kvGet_kvSet_self (kv : KvStore) (k : KvKey) (v : CommitData) :
    kvGet (kvSet kv k v) k = some v := by
  induction kv with
  | nil => simp [kvSet, kvGet]
  | cons e rest ih =>
    by_cases h : e.1 = k
    · simp [kvSet, kvGet, h]
    · simpa [kvSet, kvGet, h] using ih

theorem kvGet_kvSet_ne (kv : KvStore) (k k' : KvKey) (v : CommitData)
    (h : k' ≠ k) : kvGet (kvSet kv k v) k' = kvGet kv k' := by
  induction kv with
  | nil => simp [kvSet, kvGet, Ne.symm h]
  | cons e rest ih =>
    by_cases he : e.1 = k
    · have he' : ¬e.1 = k' := by rw [he]; exact Ne.symm h
      simp [kvSet, kvGet, he, Ne.symm h, he']
    · by_cases he' : e.1 = k'
      · simp [kvSet, kvGet, he, he', h]
      · simpa [kvSet, kvGet, he, he'] using ih

theorem mem_kvSet_of_ne (kv : KvStore) (k : KvKey) (v : CommitData)
    (e : KvKey × CommitData) (he : e ∈ kv) (hk : e.1 ≠ k) :
    e ∈ kvSet kv k v := by
  induction kv with
  | nil => cases he
  | cons e₀ rest ih =>
    by_cases h : e₀.1 = k
    · rcases List.mem_cons.mp he with h₁ | h₁
      · exact absurd (h₁ ▸ h) hk
      · simp [kvSet, h, h₁]
    · rcases List.mem_cons.mp he with h₁ | h₁
      · simp [kvSet, h, h₁]
      · simp [kvSet, h, ih h₁]

theorem length_kvSet_of_get_none (kv : KvStore) (k : KvKey) (v : CommitData)
    (h : kvGet kv k = none) : (kvSet kv k v).length = kv.length + 1 := by
  induction kv with
  | nil => simp [kvSet]
  | cons e rest ih =>
    by_cases he : e.1 = k
    · exfalso
      simp [kvGet, he] at h
    · have h' : kvGet rest k = none := by
        simpa [kvGet, he] using h
      simp [kvSet, he, ih h']

theorem kvSet_kvSet_self (kv : KvStore) (k : KvKey) (v : CommitData) :
    kvSet (kvSet kv k v) k v = kvSet kv k v := by
  induction kv with
  | nil => simp [kvSet]
  | cons e rest ih =>
    by_cases h : e.1 = k
    · simp [kvSet, h]
    · simp [kvSet, h, ih]

theorem mem_kvKeys_kvSet (kv : KvStore) (k : KvKey) (v : CommitData)
    (x : KvKey) (hx : x ∈ kvKeys (kvSet kv k v)) :
    x = k ∨ x ∈ kvKeys kv := by
  induction kv with
  | nil => simpa [kvSet, kvKeys] using hx
  | cons e rest ih =>
    by_cases h : e.1 = k
    · rcases (by simpa [kvSet, kvKeys, h] using hx : x = k ∨ x ∈ rest.map Prod.fst) with h₁ | h₁
      · exact Or.inl h₁
      · exact Or.inr (by simp [kvKeys, h₁])
    · rcases (by simpa [kvSet, kvKeys, h] using hx : x = e.1 ∨ x ∈ kvKeys (kvSet rest k v)) with h₁ | h₁
      · exact Or.inr (by simp [kvKeys, h₁])
      · rcases ih h₁ with h₂ | h₂
        · exact Or.inl h₂
        · exact Or.inr (by simp [kvKeys] at h₂ ⊢; exact Or.inr h₂)

theorem nodupKeys_kvSet (kv : KvStore) (k : KvKey) (v : CommitData)
    (h : nodupKeys kv) : nodupKeys (kvSet kv k v) := by
  induction kv with
  | nil => simp [kvSet, nodupKeys, kvKeys]
  | cons e rest ih =>
    rw [nodupKeys, kvKeys] at h
    simp only [List.map_cons, List.nodup_cons] at h
    by_cases he : e.1 = k
    · rw [nodupKeys, kvKeys]
      simp only [kvSet, he, if_true, List.map_cons, List.nodup_cons]
      exact ⟨by simpa [he] using h.1, h.2⟩
    · have hrest := ih h.2
      rw [nodupKeys, kvKeys]
      simp only [kvSet, he, if_false, List.map_cons, List.nodup_cons]
      refine ⟨fun hmem => ?_, hrest⟩
      rcases mem_kvKeys_kvSet rest k v e.1 (by simpa [kvKeys] using hmem) with h₁ | h₁
      · exact he h₁
      · exact h.1 (by simpa [kvKeys] using h₁)

theorem countP_eq_zero_of_not_mem_keys (kv : KvStore) (k : KvKey)
    (h : k ∉ kvKeys kv) :
    kv.countP (fun e => decide (e.1 = k)) = 0 := by
  induction kv with
  | nil => simp
  | cons e rest ih =>
    simp only [kvKeys, List.map_cons, List.mem_cons, not_or] at h
    rw [List.countP_cons]
    have : ¬e.1 = k := fun hk => h.1 (hk ▸ rfl)
    simp [this, ih (by simpa [kvKeys] using h.2)]

theorem countP_kvSet_self (kv : KvStore) (k : KvKey) (v : CommitData)
    (h : nodupKeys kv) :
    (kvSet kv k v).countP (fun e => decide (e.1 = k)) = 1 := by
  induction kv with
  | nil => simp [kvSet]
  | cons e rest ih =>
    rw [nodupKeys, kvKeys] at h
    simp only [List.map_cons, List.nodup_cons] at h
    by_cases he : e.1 = k
    · simp only [kvSet, he, if_true]
      rw [List.countP_cons]
      have hk : k ∉ kvKeys rest := by
        rw [← he]; simpa [kvKeys] using h.1
      simp [countP_eq_zero_of_not_mem_keys rest k hk]
    · simp only [kvSet, he, if_false]
      rw [List.countP_cons]
      simp [he, ih h.2]

theorem kvListPfx_kvSet_ne (kv : KvStore) (k : KvKey) (v : CommitData)
    (p : String) (h : k.1 ≠ p) : kvListPfx (kvSet kv k v) p = kvListPfx kv p := by
  induction kv with
  | nil => simp [kvSet, kvListPfx, h]
  | cons e rest ih =>
    by_cases he : e.1 = k
    · have hep : ¬e.1.1 = p := by rw [he]; exact h
      simp [kvSet, kvListPfx, he, h, hep]
    · have ih' := ih
      rw [kvListPfx, kvListPfx] at ih'
      rw [kvListPfx, kvListPfx]
      by_cases hep : e.1.1 = p
      · simp [kvSet, he, hep, ih']
      · simp [kvSet, he, hep, ih']

theorem mem_kvListPfx_of_mem (kv : KvStore) (p : String)
    (e : KvKey × CommitData) (he : e ∈ kv) (hp : e.1.1 = p) :
    e.2 ∈ kvListPfx kv p := by
  rw [kvListPfx]
  exact List.mem_map.mpr ⟨e, List.mem_filter.mpr ⟨he, by simp [hp]⟩, rfl⟩

/-- parseCommitItem keeps the sha of the raw commit as the hash. -/
theorem parseCommitItem_hash (item : RawCommit) :
    (parseCommitItem item).commitHash = item.sha := rfl

theorem kvGet_storeCommits_ne (kv : KvStore) (repo : String)
    (cs : List CommitData) (k : KvKey)
    (h : ∀ c ∈ cs, k ≠ ("commits/" ++ repo, c.commitHash)) :
    kvGet (storeCommits kv repo cs) k = kvGet kv k := by
  induction cs generalizing kv with
  | nil => rfl
  | cons c rest ih =>
    rw [storeCommits, List.foldl_cons]
    rw [← storeCommits]
    rw [ih _ fun c' hc' => h c' (List.mem_cons_of_mem _ hc')]
    exact kvGet_kvSet_ne kv _ k c (h c (List.mem_cons_self _ _))

theorem mem_storeCommits_of_ne (kv : KvStore) (repo : String)
    (cs : List CommitData) (e : KvKey × CommitData) (he : e ∈ kv)
    (h : ∀ c ∈ cs, e.1 ≠ ("commits/" ++ repo, c.commitHash)) :
    e ∈ storeCommits kv repo cs := by
  induction cs generalizing kv with
  | nil => exact he
  | cons c rest ih =>
    rw [storeCommits, List.foldl_cons, ← storeCommits]
    exact ih _ (mem_kvSet_of_ne kv _ c e he (h c (List.mem_cons_self _ _)))
      fun c' hc' => h c' (List.mem_cons_of_mem _ hc')

theorem kvListPfx_storeCommits_ne (kv : KvStore) (repo : String)
    (cs : List CommitData) (p : String) (h : p ≠ "commits/" ++ repo) :
    kvListPfx (storeCommits kv repo cs) p = kvListPfx kv p := by
  induction cs generalizing kv with
  | nil => rfl
  | cons c rest ih =>
    rw [storeCommits, List.foldl_cons, ← storeCommits]
    rw [ih]
    exact kvListPfx_kvSet_ne kv _ c p (Ne.symm h)

/-! ### Facts about the watermark fold -/

theorem stepMax_some_some (m t : Timestamp) :
    stepMax (some m) (some t) = some (max m t) := by
  rw [stepMax]
  by_cases h : m < t
  · simp [h, Nat.max_eq_right (Nat.le_of_lt h)]
  · simp [h, Nat.max_eq_left (Nat.le_of_not_lt h)]

theorem foldl_stepMax_some (l : List CommitData) (m : Timestamp) :
    l.foldl (fun acc c => stepMax acc c.commitTimestamp) (some m)
      = some ((l.filterMap (fun c => c.commitTimestamp)).foldl max m) := by
  induction l generalizing m with
  | nil => rfl
  | cons c rest ih =>
    simp only [List.foldl_cons]
    cases hc : c.commitTimestamp with
    | none =>
      show List.foldl (fun acc c => stepMax acc c.commitTimestamp) (some m) rest = _
      rw [ih]
      simp [List.filterMap_cons, hc]
    | some t =>
      rw [stepMax_some_some, ih]
      simp [List.filterMap_cons, hc]

theorem foldl_stepMax_eq_listMax (l : List CommitData) :
    l.foldl (fun acc c => stepMax acc c.commitTimestamp) none
      = (l.filterMap (fun c => c.commitTimestamp)).max? := by
  induction l with
  | nil => rfl
  | cons c rest ih =>
    simp only [List.foldl_cons]
    cases hc : c.commitTimestamp with
    | none =>
      show List.foldl (fun acc c => stepMax acc c.commitTimestamp) none rest = _
      rw [ih]
      simp [List.filterMap_cons, hc]
    | some t =>
      show List.foldl (fun acc c => stepMax acc c.commitTimestamp) (some t) rest = _
      rw [foldl_stepMax_some]
      simp only [List.filterMap_cons, hc]
      rw [List.max?_cons']

/-- The watermark tracker result, characterized as the maximum of the
present timestamps among the stored records of the repository. -/
theorem getLatest_eq_listMax (kv : KvStore) (repo : String) :
    getLatestStoredCommitTimestamp kv repo
      = ((kvListPfx kv ("commits/" ++ repo)).filterMap (fun c => c.commitTimestamp)).max? :=
  foldl_stepMax_eq_listMax _

theorem le_foldl_max_init (l : List Nat) (a : Nat) : a ≤ l.foldl max a := by
  induction l generalizing a with
  | nil => exact Nat.le_refl a
  | cons b rest ih => exact Nat.le_trans (Nat.le_max_left a b) (ih (max a b))

theorem le_foldl_max_of_mem (l : List Nat) (a t : Nat) (ht : t ∈ l) :
    t ≤ l.foldl max a := by
  induction l generalizing a with
  | nil => cases ht
  | cons b rest ih =>
    rcases List.mem_cons.mp ht with h | h
    · rw [List.foldl_cons, h]
      exact Nat.le_trans (le_max_right a b) (le_foldl_max_init rest (max a b))
    · rw [List.foldl_cons]
      exact ih (max a b) h

theorem exists_listMax_ge_of_mem (l : List Nat) (t : Nat) (ht : t ∈ l) :
    ∃ m, l.max? = some m ∧ t ≤ m := by
  cases l with
  | nil => cases ht
  | cons a rest =>
    refine ⟨rest.foldl max a, List.max?_cons', ?_⟩
    rcases List.mem_cons.mp ht with h | h
    · rw [h]
      exact le_foldl_max_init rest a
    · exact le_foldl_max_of_mem rest a t h

theorem listMax_mem (l : List Nat) (m : Nat) (h : l.max? = some m) : m ∈ l :=
  List.max?_mem (fun a b => max_choice a b) h

theorem kvSet_kvSet_same (kv : KvStore) (k : KvKey) (v₁ v₂ : CommitData) :
    kvSet (kvSet kv k v₁) k v₂ = kvSet kv k v₂ := by
  induction kv with
  | nil => simp [kvSet]
  | cons e rest ih =>
    by_cases h : e.1 = k
    · simp [kvSet, h]
    · simp [kvSet, h, ih]

theorem main_eq (kv : KvStore) (fetch : Option Timestamp → List RawCommit) (repo : String) :
    main kv fetch repo = storeCommits kv repo (parseCommits (fetch (sinceOf kv repo))) := rfl

theorem string_append_cancel (s t₁ t₂ : String) (h : s ++ t₁ = s ++ t₂) : t₁ = t₂ := by
  have hd := congrArg String.data h
  simp only [String.data_append] at hd
  exact String.ext (List.append_cancel_left hd)

/-! ### Concrete fixtures used in closed checks -/

/-- A stored record with hash a and timestamp 100. -/
def recA : CommitData :=
  { commitHash := "a", commitTimestamp := some 100, commitMessage := "m", commitEmail := none }

/-- A record with the same hash as recA and different field values. -/
def recA2 : CommitData :=
  { commitHash := "a", commitTimestamp := some 150, commitMessage := "m later",
    commitEmail := some "e@x" }

/-- A one-record store for repository r, watermark 100. -/
def kvOne : KvStore := [(("commits/r", "a"), recA)]

/-- A raw commit sharing the hash a, with neither author nor committer. -/
def rawNoDates : RawCommit :=
  { sha := "a", commit := { message := "m2", author := none, committer := none } }

/-- A raw commit with a fresh hash and an author date. -/
def rawFresh : RawCommit :=
  { sha := "b", commit :=
    { message := "m3", author := some { email := some "e@x", date := some 200 },
      committer := none } }

/-- A record with an absent timestamp. -/
def recNoTs : CommitData :=
  { commitHash := "c", commitTimestamp := none, commitMessage := "m", commitEmail := none }

/-- A store whose only record has no timestamp. -/
def kvNoTs : KvStore := [(("commits/r", "c"), recNoTs)]

/-- A raw commit whose author has an email but no date, committer absent. -/
def rawAuthorNoDate : RawCommit :=
  { sha := "h6", commit :=
    { message := "m6", author := some { email := some "a@x", date := none },
      committer := none } }

/-- A raw commit with both sub-records dated, carrying different emails. -/
def rawAuthorDated : RawCommit :=
  { sha := "h5", commit :=
    { message := "m5",
      author := some { email := some "au@x", date := some 300 },
      committer := some { email := some "co@x", date := some 400 } } }

/-- A raw commit with a dateless author and a dated committer. -/
def rawCommitterDated : RawCommit :=
  { sha := "h5b", commit :=
    { message := "m5b",
      author := some { email := some "au@x", date := none },
      committer := some { email := some "co@x", date := some 400 } } }

/-! ### The claims -/

/-- C1: a sync cycle computes the watermark from the store and then fetches
with since equal to the watermark plus exactly one second when the watermark
is present, and with since absent when the store holds no timestamped record
for the repository; a commit whose timestamp equals the stored watermark
fails the inclusive upstream since filter, so it is not requested again. -/
theorem C1_cycle_since_offset (kv : KvStore) (repo : String)
    (fetch : Option Timestamp → List RawCommit) :
    main kv fetch repo = storeCommits kv repo (parseCommits (fetch (sinceOf kv repo)))
    ∧ (∀ w, getLatestStoredCommitTimestamp kv repo = some w →
        sinceOf kv repo = some (w + SECOND)
        ∧ passesSinceFilter (sinceOf kv repo) w = false)
    ∧ (getLatestStoredCommitTimestamp kv repo = none → sinceOf kv repo = none) := by
  refine ⟨rfl, fun w hw => ⟨by simp [sinceOf, hw], ?_⟩, fun h => by simp [sinceOf, h]⟩
  simp only [sinceOf, hw, passesSinceFilter, SECOND]
  exact decide_eq_false (Nat.not_le.mpr (Nat.lt_add_of_pos_right (by decide)))

/-- Witness for C1: with the concrete store kvOne whose watermark is 100,
the since instant is 1100 and the instant 100 itself fails the filter. -/
theorem C1_cycle_since_offset_witness :
    sinceOf kvOne "r" = some (100 + SECOND)
    ∧ passesSinceFilter (sinceOf kvOne "r") 100 = false :=
  (C1_cycle_since_offset kvOne "r" (fun _ => [])).2.1 100 (by decide)

/-- C2: writing a record whose commitHash already exists under the
repository prefix overwrites the existing entry in place: storing two
records with the same hash equals storing only the second, the store then
holds exactly one entry for that key carrying the latest written values, and
ingesting the same raw commit twice equals ingesting it once. -/
theorem C2_upsert_no_duplicates (kv : KvStore) (repo : String) (c₁ c₂ : CommitData)
    (hnd : nodupKeys kv) (hh : c₁.commitHash = c₂.commitHash) :
    storeCommits kv repo [c₁, c₂] = storeCommits kv repo [c₂]
    ∧ kvGet (storeCommits kv repo [c₁, c₂]) ("commits/" ++ repo, c₂.commitHash) = some c₂
    ∧ (storeCommits kv repo [c₁, c₂]).countP
        (fun e => decide (e.1 = ("commits/" ++ repo, c₂.commitHash))) = 1
    ∧ ∀ rc : RawCommit,
        storeCommits kv repo (parseCommits [rc, rc]) = storeCommits kv repo (parseCommits [rc]) := by
  have e1 : storeCommits kv repo [c₁, c₂]
      = kvSet (kvSet kv ("commits/" ++ repo, c₁.commitHash) c₁)
          ("commits/" ++ repo, c₂.commitHash) c₂ := rfl
  refine ⟨?_, ?_, ?_, fun rc => ?_⟩
  · rw [e1, hh, kvSet_kvSet_same]
    rfl
  · rw [e1]
    exact kvGet_kvSet_self _ _ c₂
  · rw [e1]
    exact countP_kvSet_self _ _ c₂ (nodupKeys_kvSet kv _ c₁ hnd)
  · show kvSet (kvSet kv _ (parseCommitItem rc)) _ (parseCommitItem rc)
      = kvSet kv _ (parseCommitItem rc)
    exact kvSet_kvSet_same kv _ _ _

/-- Witness for C2 at the empty store with two same-hash records. -/
theorem C2_upsert_no_duplicates_witness :
    storeCommits [] "r" [recA, recA2] = storeCommits [] "r" [recA2]
    ∧ kvGet (storeCommits [] "r" [recA, recA2]) ("commits/" ++ "r", recA2.commitHash)
        = some recA2 := by
  have h := C2_upsert_no_duplicates [] "r" recA recA2 (by simp [nodupKeys, kvKeys]) rfl
  exact ⟨h.1, h.2.1⟩

/-- C3: getLatestStoredCommitTimestamp returns the maximum commitTimestamp
among the records stored under the repository prefix, ignoring records with
absent timestamps: an absent timestamp never displaces a present maximum,
and when every scanned record has an absent timestamp, or no record exists,
the result is absent. -/
theorem C3_latest_timestamp_max (kv : KvStore) (repo : String) :
    getLatestStoredCommitTimestamp kv repo
      = ((kvListPfx kv ("commits/" ++ repo)).filterMap (fun c => c.commitTimestamp)).max?
    ∧ (∀ m : Timestamp, stepMax (some m) none = some m)
    ∧ ((∀ c ∈ kvListPfx kv ("commits/" ++ repo), c.commitTimestamp = none) →
        getLatestStoredCommitTimestamp kv repo = none) := by
  refine ⟨getLatest_eq_listMax kv repo, fun m => rfl, fun h => ?_⟩
  rw [getLatest_eq_listMax, List.filterMap_eq_nil_iff.mpr h]
  rfl

/-- Witness for C3: a store whose only record has an absent timestamp
yields an absent watermark. -/
theorem C3_latest_timestamp_max_witness :
    getLatestStoredCommitTimestamp kvNoTs "r" = none :=
  (C3_latest_timestamp_max kvNoTs "r").2.2 (by decide)

/-- C4 counterexample: from a store whose only record for the repository has
hash a and timestamp 100, a cycle whose fetch result carries a raw commit
with the same hash and no dates overwrites that record in place and the
watermark drops from 100 to absent, so it is not greater than or equal to
its value before the cycle. -/
theorem C4_counterexample :
    getLatestStoredCommitTimestamp kvOne "r" = some 100
    ∧ getLatestStoredCommitTimestamp (main kvOne (fun _ => [rawNoDates]) "r") "r" = none := by
  constructor
  · decide
  · decide

/-- C4 amended: for every store state containing at least one timestamped
commit for the repository and every fetch result in which no fetched commit
carries the hash of a record already stored under that repository prefix,
after one successful cycle the watermark is greater than or equal to its
value before the cycle. -/
theorem C4_watermark_monotone (kv : KvStore) (repo : String)
    (fetch : Option Timestamp → List RawCommit) (w : Timestamp)
    (hfresh : ∀ rc ∈ fetch (sinceOf kv repo), ∀ e ∈ kv,
        e.1 ≠ ("commits/" ++ repo, rc.sha))
    (hw : getLatestStoredCommitTimestamp kv repo = some w) :
    ∃ wNew, getLatestStoredCommitTimestamp (main kv fetch repo) repo = some wNew
      ∧ w ≤ wNew := by
  have hmax := getLatest_eq_listMax kv repo
  rw [hw] at hmax
  have hwmem : w ∈ (kvListPfx kv ("commits/" ++ repo)).filterMap (fun c => c.commitTimestamp) :=
    listMax_mem _ w hmax.symm
  rcases List.mem_filterMap.mp hwmem with ⟨c, hcmem, hct⟩
  rw [kvListPfx] at hcmem
  rcases List.mem_map.mp hcmem with ⟨e, hef, he2⟩
  have hemem : e ∈ kv := (List.mem_filter.mp hef).1
  have hep : e.1.1 = "commits/" ++ repo := by
    have h := (List.mem_filter.mp hef).2
    simpa using h
  have hsurv : e ∈ storeCommits kv repo (parseCommits (fetch (sinceOf kv repo))) := by
    apply mem_storeCommits_of_ne kv repo _ e hemem
    intro pc hpc
    rcases List.mem_map.mp hpc with ⟨rc, hrc, hpcrc⟩
    intro hkey
    apply hfresh rc hrc e hemem
    rw [hkey, ← hpcrc, parseCommitItem_hash]
  have hmem2 : c ∈ kvListPfx (main kv fetch repo) ("commits/" ++ repo) := by
    rw [main_eq]
    have h := mem_kvListPfx_of_mem _ ("commits/" ++ repo) e hsurv hep
    rwa [he2] at h
  have hwmem2 : w ∈ (kvListPfx (main kv fetch repo) ("commits/" ++ repo)).filterMap
      (fun c => c.commitTimestamp) :=
    List.mem_filterMap.mpr ⟨c, hmem2, hct⟩
  rcases exists_listMax_ge_of_mem _ w hwmem2 with ⟨m, hm, hwm⟩
  refine ⟨m, ?_, hwm⟩
  rw [getLatest_eq_listMax]
  exact hm

/-- Witness for C4 amended: a cycle adding one fresh-hash commit keeps the
watermark at or above 100. -/
theorem C4_watermark_monotone_witness :
    ∃ wNew, getLatestStoredCommitTimestamp (main kvOne (fun _ => [rawFresh]) "r") "r" = some wNew
      ∧ 100 ≤ wNew :=
  C4_watermark_monotone kvOne "r" (fun _ => [rawFresh]) 100 (by decide) (by decide)

/-- C5: parseCommits resolves timestamp and email as an all-or-nothing pair:
when the author sub-record is present with a date, the record takes the
author date and the author email, even if the committer email differs; when
the author sub-record is absent or dateless and the committer has a date,
the record takes the committer date and the committer email together, never
a mix of author email with committer date. -/
theorem C5_author_fallback (item : RawCommit) :
    (∀ a d, item.commit.author = some a → a.date = some d →
        (parseCommitItem item).commitTimestamp = some d
        ∧ (parseCommitItem item).commitEmail = a.email)
    ∧ (∀ c d,
        (item.commit.author = none ∨ ∃ a, item.commit.author = some a ∧ a.date = none) →
        item.commit.committer = some c → c.date = some d →
        (parseCommitItem item).commitTimestamp = some d
        ∧ (parseCommitItem item).commitEmail = c.email) := by
  constructor
  · intro a d ha hd
    constructor
    · simp [parseCommitItem, ha, hd]
    · simp [parseCommitItem, ha, hd]
  · rintro c d (ha | ⟨a, ha, had⟩) hc hd
    · constructor
      · simp [parseCommitItem, ha, hc, hd]
      · simp [parseCommitItem, ha, hc, hd]
    · constructor
      · simp [parseCommitItem, ha, had, hc, hd]
      · simp [parseCommitItem, ha, had, hc, hd]

/-- Witness for C5: the author-dated raw commit takes author date and email
even though the committer email differs; the committer-dated raw commit
takes the committer date and email together. -/
theorem C5_author_fallback_witness :
    ((parseCommitItem rawAuthorDated).commitTimestamp = some 300
      ∧ (parseCommitItem rawAuthorDated).commitEmail = some "au@x")
    ∧ ((parseCommitItem rawCommitterDated).commitTimestamp = some 400
      ∧ (parseCommitItem rawCommitterDated).commitEmail = some "co@x") := by
  constructor
  · exact (C5_author_fallback rawAuthorDated).1
      { email := some "au@x", date := some 300 } 300 rfl rfl
  · exact (C5_author_fallback rawCommitterDated).2
      { email := some "co@x", date := some 400 } 400
      (Or.inr ⟨{ email := some "au@x", date := none }, rfl, rfl⟩) rfl rfl

/-- C6 counterexample: a raw commit whose author sub-record is present with
an email but no date, and whose committer is absent, has no date in either
sub-record, yet the parsed record carries the author email rather than an
absent commitEmail, refuting the claim. -/
theorem C6_counterexample :
    rawAuthorNoDate.commit.author = some { email := some "a@x", date := none }
    ∧ rawAuthorNoDate.commit.committer = none
    ∧ (parseCommitItem rawAuthorNoDate).commitTimestamp = none
    ∧ (parseCommitItem rawAuthorNoDate).commitEmail = some "a@x" :=
  ⟨rfl, rfl, rfl, rfl⟩

/-- C6 amended: for every raw commit in which neither sub-record carries a
date, parseCommits still emits a record, so the output count is preserved
and the store count grows by one when the hash is fresh; the record has an
absent commitTimestamp and hash and message populated from the raw commit,
and its commitEmail carries the author email field when the author
sub-record is present and is absent otherwise. -/
theorem C6_no_date_survival (item : RawCommit) (kv : KvStore) (repo : String)
    (hauth : ∀ a, item.commit.author = some a → a.date = none)
    (hcomm : ∀ c, item.commit.committer = some c → c.date = none) :
    (parseCommitItem item).commitTimestamp = none
    ∧ (parseCommitItem item).commitHash = item.sha
    ∧ (parseCommitItem item).commitMessage = item.commit.message
    ∧ (parseCommitItem item).commitEmail
        = (match item.commit.author with
           | some a => a.email
           | none => none)
    ∧ (parseCommits [item]).length = ([item] : List RawCommit).length
    ∧ (kvGet kv ("commits/" ++ repo, item.sha) = none →
        (storeCommits kv repo (parseCommits [item])).length = kv.length + 1) := by
  have hts : (parseCommitItem item).commitTimestamp = none
      ∧ (parseCommitItem item).commitEmail
        = (match item.commit.author with
           | some a => a.email
           | none => none) := by
    cases ha : item.commit.author with
    | none =>
      cases hc : item.commit.committer with
      | none =>
        constructor
        · simp [parseCommitItem, ha, hc]
        · simp [parseCommitItem, ha, hc]
      | some cmt =>
        constructor
        · simp [parseCommitItem, ha, hc, hcomm cmt hc]
        · simp [parseCommitItem, ha, hc, hcomm cmt hc]
    | some a =>
      cases hc : item.commit.committer with
      | none =>
        constructor
        · simp [parseCommitItem, ha, hc, hauth a ha]
        · simp [parseCommitItem, ha, hc, hauth a ha]
      | some cmt =>
        constructor
        · simp [parseCommitItem, ha, hc, hauth a ha, hcomm cmt hc]
        · simp [parseCommitItem, ha, hc, hauth a ha, hcomm cmt hc]
  refine ⟨hts.1, rfl, rfl, hts.2, rfl, fun hget => ?_⟩
  show (kvSet kv ("commits/" ++ repo, (parseCommitItem item).commitHash)
      (parseCommitItem item)).length = kv.length + 1
  rw [parseCommitItem_hash]
  exact length_kvSet_of_get_none kv _ _ hget

/-- Witness for C6 amended: a raw commit with both sub-records absent still
lands in the store, growing the empty store to one entry. -/
theorem C6_no_date_survival_witness :
    (parseCommitItem rawNoDates).commitTimestamp = none
    ∧ (storeCommits [] "r" (parseCommits [rawNoDates])).length = 1 := by
  have h := C6_no_date_survival rawNoDates [] "r"
    (fun a ha => Option.noConfusion ha) (fun c hc => Option.noConfusion hc)
  exact ⟨h.1, h.2.2.2.2.2 rfl⟩

/-- C7: validateRepoConfig returns the supplied pair when both owner and
repo are present non-empty strings, returns the default pair together when
neither is, and fails with the config error when exactly one of the pair is
a present non-empty string: a partial pair is never defaulted and a custom
value is never combined with a default one. -/
theorem C7_repo_owner_validation (owner repo : Option String) (dO dR : String) :
    (∀ o r, owner = some o → repo = some r → o ≠ "" → r ≠ "" →
        validateRepoConfig owner dO repo dR = Except.ok { repo := r, owner := o })
    ∧ (isNonEmptyConfigString owner = false → isNonEmptyConfigString repo = false →
        validateRepoConfig owner dO repo dR = Except.ok { repo := dR, owner := dO })
    ∧ (isNonEmptyConfigString owner ≠ isNonEmptyConfigString repo →
        validateRepoConfig owner dO repo dR = Except.error repoConfigErrMsg) := by
  refine ⟨?_, ?_, ?_⟩
  · intro o r ho hr ho' hr'
    subst ho
    subst hr
    simp [validateRepoConfig, isNonEmptyConfigString, ho', hr']
  · intro ho hr
    simp [validateRepoConfig, ho, hr]
  · intro hne
    rcases Bool.eq_false_or_eq_true (isNonEmptyConfigString owner) with ho | ho
      <;> rcases Bool.eq_false_or_eq_true (isNonEmptyConfigString repo) with hr | hr
    · exact absurd (ho.trans hr.symm) hne
    · simp [validateRepoConfig, ho, hr]
    · simp [validateRepoConfig, ho, hr]
    · exact absurd (ho.trans hr.symm) hne

/-- Witness for C7: a full custom pair is returned as supplied, a fully
missing pair yields both defaults, and a lone repo raises the error. -/
theorem C7_repo_owner_validation_witness :
    validateRepoConfig (some "o1") "dO" (some "r1") "dR"
      = Except.ok { repo := "r1", owner := "o1" }
    ∧ validateRepoConfig none "dO" none "dR" = Except.ok { repo := "dR", owner := "dO" }
    ∧ validateRepoConfig none "dO" (some "r1") "dR" = Except.error repoConfigErrMsg := by
  refine ⟨?_, ?_, ?_⟩
  · exact (C7_repo_owner_validation (some "o1") (some "r1") "dO" "dR").1 "o1" "r1"
      rfl rfl (by decide) (by decide)
  · exact (C7_repo_owner_validation none none "dO" "dR").2.1 rfl rfl
  · exact (C7_repo_owner_validation none (some "r1") "dO" "dR").2.2 (by decide)

/-- C8 counterexample: with owner supplied as the non-empty string me and
repo missing, validateRepoConfig throws the config error rather than
returning the default pair. -/
theorem C8_counterexample :
    validateRepoConfig (some "me") "nakennedy11" none "cs4550hw01"
      = Except.error repoConfigErrMsg
    ∧ validateRepoConfig (some "me") "nakennedy11" none "cs4550hw01"
      ≠ Except.ok { repo := "cs4550hw01", owner := "nakennedy11" } :=
  ⟨rfl, fun h => Except.noConfusion h⟩

/-- C8 amended: for every config input whose owner is a present non-empty
string and whose repo is absent or empty, validateRepoConfig fails with the
config error: it returns no RepoInfo at all, in particular never the default
pair and never the custom owner with the default repo. -/
theorem C8_partial_pair_fails (owner : Option String) (o : String) (dO dR : String)
    (repo : Option String) (ho : owner = some o) (hne : o ≠ "")
    (hr : isNonEmptyConfigString repo = false) :
    validateRepoConfig owner dO repo dR = Except.error repoConfigErrMsg := by
  subst ho
  have ho' : isNonEmptyConfigString (some o) = true := by
    simp [isNonEmptyConfigString, hne]
  simp [validateRepoConfig, ho', hr]

/-- Witness for C8 amended at a concrete partial pair. -/
theorem C8_partial_pair_fails_witness :
    validateRepoConfig (some "me2") "a" (some "") "b" = Except.error repoConfigErrMsg :=
  C8_partial_pair_fails (some "me2") "me2" "a" "b" (some "") rfl (by decide) (by decide)

/-- C9: behavior at the failing input. With a cron parser that rejects the
supplied non-empty schedule string, validateCronConfig propagates the parse
failure as an error instead of recovering with the default schedule, so
reading the config aborts; the function documentation says the default is
used when the value is invalid. -/
theorem C9_cron_failure_fatal :
    validateCronConfig (fun _ => false) (some "not a cron") "d" = Except.error cronErrMsg
    ∧ validateCronConfig (fun _ => false) (some "not a cron") "d" ≠ Except.ok "d" :=
  ⟨rfl, fun h => Except.noConfusion h⟩

/-- C10: one cycle for a repository writes only under that repository's
commits prefix: every key whose first component differs from that prefix
holds the same value after the cycle, and the stored record list of every
other repository is exactly unchanged. -/
theorem C10_cycle_frame (kv : KvStore) (repo : String)
    (fetch : Option Timestamp → List RawCommit) :
    (∀ k : KvKey, k.1 ≠ "commits/" ++ repo → kvGet (main kv fetch repo) k = kvGet kv k)
    ∧ (∀ repoB, repoB ≠ repo →
        kvListPfx (main kv fetch repo) ("commits/" ++ repoB)
          = kvListPfx kv ("commits/" ++ repoB)) := by
  constructor
  · intro k hk
    rw [main_eq]
    apply kvGet_storeCommits_ne
    intro c hc h
    exact hk (by rw [h])
  · intro repoB hB
    rw [main_eq]
    apply kvListPfx_storeCommits_ne
    intro h
    exact hB (string_append_cancel "commits/" repoB repo h)

/-- Witness for C10: a cycle on repository r leaves the key space and the
record list of repository s untouched. -/
theorem C10_cycle_frame_witness :
    kvGet (main kvOne (fun _ => [rawFresh]) "r") ("commits/s", "a")
      = kvGet kvOne ("commits/s", "a")
    ∧ kvListPfx (main kvOne (fun _ => [rawFresh]) "r") ("commits/" ++ "s")
      = kvListPfx kvOne ("commits/" ++ "s") := by
  have h := C10_cycle_frame kvOne "r" (fun _ => [rawFresh])
  exact ⟨h.1 ("commits/s", "a") (by decide), h.2 "s" (by decide)⟩

end GitEtl
